import Mathlib

/-!
Verification of the csvts CSV parser core (src/lib/parser.ts).

The embedding translates the parser class member by member:
  * `scanRow` / `parseRow`   — the character loop of `CsvParser.parseRow`;
  * `convertType`            — `CsvParser.convertType`;
  * `detectNewline`, `jsSplit`, `jsTrim`, `jsStartsWith` — the JavaScript
    string primitives the parser calls (`String.prototype.split`, `trim`,
    `startsWith`, `includes`), implemented with the same semantics;
  * `buildObj` / `buildArr` / `materializeRow` / `processLines` /
    `processData` — `CsvParser.processData`, split into its row loop and
    per-row `forEach`.

Modelling conventions:
  * JavaScript exceptions are modelled with `Except String`; a thrown value
    is identified with its message (the code only reads `error.message`).
  * The host functions `Number(v)` and `new Date(v)` are not repository
    code; they are abstracted as a `JsHost` record, `none` standing for
    `NaN` / an invalid date.  Theorems about numeric or date conversion
    take the relevant host behaviour as a hypothesis.
  * JavaScript object assignment `obj[k] = v` (string-coerced keys, later
    writes overwriting earlier ones in place) is modelled by `setKey` on an
    association list; `obj[undefined]` uses the key `"undefined"`.
  * JavaScript numbers are modelled as `Int`: every numeric literal the
    claims mention is integral.
-/

/-- Runtime values a parsed field can hold after conversion. -/
inductive Value where
  | str (s : String)
  | num (n : Int)
  | bool (b : Bool)
  | null
  | jsUndefined
  | date (t : Int)
  deriving DecidableEq

/-- The key handed to the global value-transform: the header name in header
mode, the positional index in array mode, or the JavaScript `undefined`
when the row is longer than the header list. -/
inductive FieldKey where
  | name (s : String)
  | idx (n : Nat)
  | jsUndefined
  deriving DecidableEq

/-- The `newline` option: `'auto'` or an explicit separator string. -/
inductive NewlineMode where
  | auto
  | explicit (s : String)
  deriving DecidableEq

/-- The `comments` option: `false`, `true`, or a comment-marker string. -/
inductive CommentsOpt where
  | cfalse
  | ctrue
  | cstr (s : String)
  deriving DecidableEq

/-- JavaScript truthiness of the `comments` option (`''` is falsy). -/
def CommentsOpt.truthy : CommentsOpt → Bool
  | .cfalse => false
  | .ctrue => true
  | .cstr s => s != ""

/-- The comment marker used once the `comments` branch is entered:
`typeof comments === 'string' ? comments : '#'`. -/
def CommentsOpt.mark : CommentsOpt → String
  | .cstr s => s
  | _ => "#"

/-- Host-environment functions the parser calls but does not define:
`Number(v)` (with `none` for `NaN`) and `new Date(v)` (with `none` for an
invalid date, `some t` for a valid timestamp). -/
structure JsHost where
  number : String → Option Int
  dateValue : String → Option Int

/-- Configuration options of `CsvParser`, with the defaults installed by its
constructor.  `dynamicTyping` and `skipEmptyLines` admit non-boolean values
in the source type, but the code only ever tests their truthiness, so they
are modelled as `Bool`.  `transformHeader`, `transform` and the per-field
parsers are user callbacks that may throw. -/
structure CsvParseOptions where
  delimiter : Char := ','
  newline : NewlineMode := .auto
  quoteChar : Char := '"'
  escapeChar : Char := '"'
  header : Bool := true
  skipEmptyLines : Bool := true
  encoding : String := "utf8"
  transformHeader : String → Except String String := Except.ok
  transform : Value → FieldKey → Except String Value := fun v _ => Except.ok v
  dynamicTyping : Bool := false
  comments : CommentsOpt := .cfalse
  skipInvalidLines : Bool := false
  preview : Nat := 0
  parsers : String → Option (String → Except String Value) := fun _ => none
  renameHeaders : String → Option String := fun _ => none

/-- The options produced by `new CsvParser({})`. -/
def defaultOptions : CsvParseOptions := {}

/-- Error record pushed into `result.errors`. -/
structure CsvError where
  type : String
  code : String
  message : String
  row : Option Nat := none
  index : Option Nat := none
  deriving DecidableEq

/-- Metadata of a parse (`CsvMeta` in the source). -/
structure CsvMeta where
  delimiter : Char
  linebreak : String
  truncated : Bool
  fields : Option (List String) := none
  rows : Nat
  deriving DecidableEq

/-- One parsed record: an object in header mode, an array otherwise. -/
inductive Record where
  | obj (fields : List (String × Value))
  | arr (values : List Value)
  deriving DecidableEq

/-- Result of a parse (`CsvParseResult` in the source). -/
structure CsvParseResult where
  data : List Record
  errors : List CsvError
  meta : CsvMeta
  deriving DecidableEq

/-- Check whether the character list `pat` occurs as a contiguous block of
`l`; this is `String.prototype.includes`. -/
def includesList (pat : List Char) : List Char → Bool
  | [] => pat.isEmpty
  | c :: rest => pat.isPrefixOf (c :: rest) || includesList pat rest

/-- JavaScript `text.includes(pat)`. -/
def jsIncludes (s pat : String) : Bool :=
  includesList pat.toList s.toList

/-- The newline-detection member `detectNewline`: CRLF first, then LF, then
CR, defaulting to LF. -/
def detectNewline (text : String) : String :=
  if jsIncludes text "\r\n" then "\r\n"
  else if jsIncludes text "\n" then "\n"
  else if jsIncludes text "\r" then "\r"
  else "\n"

/-- The line-break separator actually used: the detected one in `'auto'`
mode, the configured string otherwise. -/
def resolveLinebreak (o : CsvParseOptions) (text : String) : String :=
  match o.newline with
  | .auto => detectNewline text
  | .explicit s => s

/-- Worker for `jsSplit` on character lists.  The first argument counts
separator characters still to be skipped after a match, so that the
recursion stays structural in the input list. -/
def splitGo (sep : List Char) : Nat → List Char → List (List Char)
  | _, [] => [[]]
  | skip + 1, _ :: rest => splitGo sep skip rest
  | 0, c :: rest =>
    if sep ≠ [] ∧ sep.isPrefixOf (c :: rest) then
      [] :: splitGo sep (sep.length - 1) rest
    else
      match splitGo sep 0 rest with
      | [] => [[c]]
      | f :: fs => (c :: f) :: fs

/-- JavaScript `text.split(sep)`: for a nonempty separator, the maximal
blocks between separator occurrences; for the empty separator, the list of
single-character strings (empty for the empty string). -/
def jsSplit (s sep : String) : List String :=
  if sep = "" then s.toList.map (fun c => String.mk [c])
  else (splitGo sep.toList 0 s.toList).map String.mk

/-- JavaScript whitespace test used by `trim` (ASCII part). -/
def jsTrim (s : String) : String :=
  String.mk (((s.toList.dropWhile Char.isWhitespace).reverse.dropWhile
    Char.isWhitespace).reverse)

/-- JavaScript `line.startsWith(pre)`. -/
def jsStartsWith (s pre : String) : Bool :=
  pre.toList.isPrefixOf s.toList

/-- The character loop of `CsvParser.parseRow`.  `skip` replays the `i++`
that consumes the delimiter after a closing quote; `prev` is `row[i-1]`,
`cv` the current field buffer, `inQ` the `isQuoted` flag. -/
def scanRow (o : CsvParseOptions) :
    Bool → Option Char → List Char → Bool → List Char → List (List Char)
  | _, _, cv, _, [] => [cv]
  | true, _, cv, inQ, c :: rest => scanRow o false (some c) cv inQ rest
  | false, prev, cv, inQ, c :: rest =>
    if c = o.quoteChar then
      if inQ ∧ rest.head? = some o.delimiter then
        scanRow o true (some c) cv false rest
      else if ¬ inQ ∧ cv = [] then
        scanRow o false (some c) cv true rest
      else if prev = some o.escapeChar then
        scanRow o false (some c) (cv.dropLast ++ [c]) inQ rest
      else
        scanRow o false (some c) cv (¬ inQ) rest
    else if c = o.delimiter ∧ ¬ inQ then
      cv :: scanRow o false (some c) [] inQ rest
    else
      scanRow o false (some c) (cv ++ [c]) inQ rest

/-- The row tokenizer `CsvParser.parseRow`. -/
def parseRow (o : CsvParseOptions) (row : String) : List String :=
  (scanRow o false none [] false row.toList).map String.mk

/-- The member `CsvParser.convertType`.  The second argument is the unused
type hint of the source.  With dynamic typing off the string is returned
unchanged; otherwise the fixed cascade of the source is applied, ending
with the host number and date conversions. -/
def convertType (o : CsvParseOptions) (host : JsHost) (value : String)
    (_hint : Option String) : Value :=
  if !o.dynamicTyping then .str value
  else if value = "" then .null
  else if value = "true" then .bool true
  else if value = "false" then .bool false
  else if value = "null" then .null
  else if value = "undefined" then .jsUndefined
  else
    match host.number value with
    | some n => .num n
    | none =>
      match host.dateValue value with
      | some t => .date t
      | none => .str value

/-- JavaScript object assignment `m[k] = v`: overwrite in place when the
key is present, append otherwise. -/
def setKey (m : List (String × Value)) (k : String) (v : Value) :
    List (String × Value) :=
  if m.any (fun p => p.1 == k) then
    m.map (fun p => if p.1 == k then (k, v) else p)
  else m ++ [(k, v)]

/-- Property key under which a field is stored in header mode:
`headers[index]`, with JavaScript coercing an `undefined` key to the string
`"undefined"`.  The same key is used for the per-field parser lookup. -/
def storeKeyOf (headers : List String) (idx : Nat) : String :=
  match headers.get? idx with
  | some h => h
  | none => "undefined"

/-- The value of `field` as handed to the global transform in header mode:
the header name, or `undefined` past the last header. -/
def fieldKeyOf (headers : List String) (idx : Nat) : FieldKey :=
  match headers.get? idx with
  | some h => .name h
  | none => .jsUndefined

/-- The type hint `typeof field === 'string' ? field : undefined`. -/
def typeHintOf (headers : List String) (idx : Nat) : Option String :=
  headers.get? idx

/-- Per-field processing of `processData`'s `row.forEach` in header mode:
a per-field parser override, when one exists for the field's key, replaces
the generic conversion; the global transform is applied afterwards either
way, and the result is stored with object-assignment semantics. -/
def buildObj (o : CsvParseOptions) (host : JsHost) (headers : List String) :
    Nat → List (String × Value) → List String →
    Except String (List (String × Value))
  | _, acc, [] => .ok acc
  | idx, acc, v :: rest => do
    let key := storeKeyOf headers idx
    let converted ←
      match o.parsers key with
      | some p => p v
      | none => Except.ok (convertType o host v (typeHintOf headers idx))
    let final ← o.transform converted (fieldKeyOf headers idx)
    buildObj o host headers (idx + 1) (setKey acc key final) rest

/-- Per-field processing of `row.forEach` in array mode: the parser-override
branch is dead (`this.options.header` is false), so every field takes the
generic conversion, then the global transform. -/
def buildArr (o : CsvParseOptions) (host : JsHost) :
    Nat → List Value → List String → Except String (List Value)
  | _, acc, [] => .ok acc
  | idx, acc, v :: rest => do
    let final ← o.transform (convertType o host v none) (.idx idx)
    buildArr o host (idx + 1) (acc ++ [final]) rest

/-- The body of `processData`'s `try` block for one line: tokenize it and
materialize the record. -/
def materializeRow (o : CsvParseOptions) (host : JsHost)
    (headers : List String) (line : String) : Except String Record :=
  let row := parseRow o line
  if o.header then do
    let fields ← buildObj o host headers 0 [] row
    .ok (.obj fields)
  else do
    let vals ← buildArr o host 0 [] row
    .ok (.arr vals)

/-- The error pushed by the `catch` branch of the row loop. -/
def rowError (msg : String) (rownum : Nat) : CsvError :=
  { type := "InvalidRow", code := "row_parse_failed", message := msg,
    row := some rownum }

/-- The error pushed by the empty-input check. -/
def emptyFileError : CsvError :=
  { type := "NoData", code := "empty_file", message := "No data found in CSV" }

/-- Header renaming `headers.map((h) => renameHeaders[h] || h)`; the
JavaScript `||` falls back to the original name when the replacement is
absent or the empty string. -/
def applyRename (o : CsvParseOptions) (h : String) : String :=
  match o.renameHeaders h with
  | some r => if r = "" then h else r
  | none => h

/-- JavaScript `Array.prototype.map` with a callback that may throw: the
first exception propagates. -/
def mapExcept (f : String → Except String String) :
    List String → Except String (List String)
  | [] => .ok []
  | h :: t => do
    let h' ← f h
    let t' ← mapExcept f t
    .ok (h' :: t')

/-- Mutable state of `processData`'s row loop. -/
structure LoopState where
  data : List Record
  errors : List CsvError
  truncated : Bool
  deriving DecidableEq

/-- The row loop of `processData` over the data lines (index `i` counts the
lines after the header shift).  In order: the preview cutoff, the trim, the
empty-line filter, the comment filter, then materialization; a failure is
rethrown or recorded as a `ParseError` with 1-based row number `i + 1`
according to `skipInvalidLines`. -/
def processLines (o : CsvParseOptions) (host : JsHost)
    (headers : List String) : Nat → LoopState → List String →
    Except String LoopState
  | _, st, [] => .ok st
  | i, st, rawLine :: rest =>
    if o.preview ≠ 0 ∧ o.preview ≤ st.data.length then
      .ok { st with truncated := true }
    else
      let line := jsTrim rawLine
      if o.skipEmptyLines ∧ line = "" then
        processLines o host headers (i + 1) st rest
      else if o.comments.truthy ∧ jsStartsWith line o.comments.mark then
        processLines o host headers (i + 1) st rest
      else
        match materializeRow o host headers line with
        | .ok record =>
          processLines o host headers (i + 1)
            { st with data := st.data ++ [record] } rest
        | .error msg =>
          if o.skipInvalidLines then
            processLines o host headers (i + 1)
              { st with errors := st.errors ++ [rowError msg (i + 1)] } rest
          else
            .error msg

/-- The member `CsvParser.processData`: resolve the line break, split into
lines, extract headers when enabled (with the empty-input check first),
run the row loop, and assemble the result. -/
def processData (o : CsvParseOptions) (host : JsHost) (csvData : String) :
    Except String CsvParseResult :=
  let lb := resolveLinebreak o csvData
  let lines := jsSplit csvData lb
  let baseMeta : CsvMeta :=
    { delimiter := o.delimiter, linebreak := lb, truncated := false,
      fields := none, rows := 0 }
  if o.header then
    match lines with
    | [] => .ok { data := [], errors := [emptyFileError], meta := baseMeta }
    | l0 :: rest => do
      let hs0 ← mapExcept o.transformHeader (parseRow o l0)
      let headers := hs0.map (applyRename o)
      let st ← processLines o host headers 0 ⟨[], [], false⟩ rest
      let finalMeta : CsvMeta :=
        { baseMeta with
          truncated := st.truncated
          fields := some headers
          rows := st.data.length }
      .ok { data := st.data, errors := st.errors, meta := finalMeta }
  else do
    let st ← processLines o host [] 0 ⟨[], [], false⟩ lines
    let finalMeta : CsvMeta :=
      { baseMeta with
        truncated := st.truncated
        rows := st.data.length }
    .ok { data := st.data, errors := st.errors, meta := finalMeta }

/-- Decimal-integer fragment of the host `Number` conversion, used to build
a concrete `JsHost` for closed evaluations. -/
def decDigits : List Char → Option Nat
  | [] => none
  | l => l.foldl (fun acc c =>
      match acc with
      | none => none
      | some n => if c.isDigit then some (n * 10 + (c.toNat - 48)) else none)
      (some 0)

/-- Concrete host instance: `Number` accepts optionally signed decimal
integers, and no string is a valid date.  Theorems that depend on the host
take its behaviour as a hypothesis; this instance only discharges them on
concrete inputs. -/
def sampleHost : JsHost where
  number s :=
    match s.toList with
    | '-' :: rest => (decDigits rest).map (fun n => -(n : Int))
    | l => (decDigits l).map (fun n => (n : Int))
  dateValue _ := none

example : sampleHost.number "30" = some 30 := rfl
example : sampleHost.number "true" = none := rfl
example : parseRow defaultOptions "a,b" = ["a", "b"] := rfl
example : parseRow defaultOptions "" = [""] := rfl
example : parseRow defaultOptions "John,\"Software Engineer, Senior\"" =
    ["John", "Software Engineer, Senior"] := rfl
example : jsSplit "a\nb\n" "\n" = ["a", "b", ""] := rfl
example : jsSplit "" "\n" = [""] := rfl
example : jsSplit "" "" = [] := rfl
example : jsTrim "  a b " = "a b" := rfl

/-! ## Tokenizer lemmas -/

/-- The tokenizer always returns at least one field: the final buffer is
pushed even when empty. -/
theorem scanRow_length_pos (o : CsvParseOptions) (skip : Bool)
    (prev : Option Char) (cv : List Char) (inQ : Bool) (l : List Char) :
    1 ≤ (scanRow o skip prev cv inQ l).length := by
  induction l generalizing skip prev cv inQ with
  | nil => cases skip <;> simp [scanRow]
  | cons c rest ih =>
    cases skip with
    | true => simpa [scanRow] using ih false (some c) cv inQ
    | false =>
      simp only [scanRow]
      split_ifs <;> simp [ih]

/-- While inside a quoted region, a run of characters free of the quote
character is appended verbatim to the current field buffer.  `lastPrev`
tracks the lookback character after the run. -/
def lastPrev : List Char → Option Char → Option Char
  | [], prev => prev
  | c :: t, _ => lastPrev t (some c)

theorem scanRow_quoted_run (o : CsvParseOptions) (l : List Char)
    (hq : o.quoteChar ∉ l) :
    ∀ (prev : Option Char) (cv rest : List Char),
    scanRow o false prev cv true (l ++ rest) =
      scanRow o false (lastPrev l prev) (cv ++ l) true rest := by
  induction l with
  | nil => intro prev cv rest; simp [lastPrev]
  | cons c t ih =>
    intro prev cv rest
    have hcq : ¬ c = o.quoteChar := by
      rintro rfl; exact hq (List.mem_cons_self _ _)
    have hqt : o.quoteChar ∉ t := fun h => hq (List.mem_cons_of_mem _ h)
    simp only [List.cons_append, scanRow, hcq, if_false, Bool.not_true,
      and_false, false_and, if_neg, reduceIte]
    have := ih hqt (some c) (cv ++ [c]) rest
    simpa [lastPrev, List.append_assoc] using this

/-- Outside any quoted region, a run free of both the quote character and
the delimiter is appended verbatim and ends the line as one field. -/
theorem scanRow_plain_run (o : CsvParseOptions) (l : List Char)
    (hq : o.quoteChar ∉ l) (hd : o.delimiter ∉ l) :
    ∀ (prev : Option Char) (cv : List Char),
    scanRow o false prev cv false l = [cv ++ l] := by
  induction l with
  | nil => intro prev cv; simp [scanRow]
  | cons c t ih =>
    intro prev cv
    have hcq : ¬ c = o.quoteChar := by
      rintro rfl; exact hq (List.mem_cons_self _ _)
    have hcd : ¬ c = o.delimiter := by
      rintro rfl; exact hd (List.mem_cons_self _ _)
    have hqt : o.quoteChar ∉ t := fun h => hq (List.mem_cons_of_mem _ h)
    have hdt : o.delimiter ∉ t := fun h => hd (List.mem_cons_of_mem _ h)
    simp only [scanRow, hcq, hcd, reduceIte, false_and, if_neg]
    simpa [List.append_assoc] using ih hqt hdt (some c) (cv ++ [c])

/-- A quoted field whose body avoids the quote character, when immediately
followed by the delimiter, closes the region and silently consumes the
delimiter; the buffer keeps accumulating into the following characters. -/
theorem scanRow_quoted_then_delim (o : CsvParseOptions) (a b : List Char)
    (hqa : o.quoteChar ∉ a) (hqb : o.quoteChar ∉ b)
    (hdb : o.delimiter ∉ b) :
    scanRow o false none [] false
        (o.quoteChar :: a ++ o.quoteChar :: o.delimiter :: b) = [a ++ b] := by
  have h1 : scanRow o false none [] false
      (o.quoteChar :: a ++ o.quoteChar :: o.delimiter :: b) =
      scanRow o false (some o.quoteChar) [] true
        (a ++ o.quoteChar :: o.delimiter :: b) := by
    simp [scanRow]
  rw [h1, scanRow_quoted_run o a hqa]
  have h2 : scanRow o false (lastPrev a (some o.quoteChar)) ([] ++ a) true
      (o.quoteChar :: o.delimiter :: b) =
      scanRow o false (some o.delimiter) ([] ++ a) false b := by
    simp [scanRow]
  rw [h2, scanRow_plain_run o b hqb hdb]
  simp

/-- Splitting never yields an empty list of fields. -/
theorem splitGo_ne_nil (sep : List Char) (skip : Nat) (l : List Char) :
    splitGo sep skip l ≠ [] := by
  induction l generalizing skip with
  | nil => cases skip <;> simp [splitGo]
  | cons c rest ih =>
    cases skip with
    | zero =>
      simp only [splitGo]
      split_ifs
      · simp
      · cases h : splitGo sep 0 rest <;> simp
    | succ k => simpa [splitGo] using ih k

/-- Spec-side description of the tokenizer on a quote-free line: the literal
substrings of the line between consecutive delimiter occurrences.  This
definition follows the specification's words and is compared against the
source tokenizer. -/
def specUnquotedFields (d : Char) : List Char → List (List Char)
  | [] => [[]]
  | c :: rest =>
    if c = d then [] :: specUnquotedFields d rest
    else
      match specUnquotedFields d rest with
      | [] => [[c]]
      | f :: fs => (c :: f) :: fs

theorem specUnquotedFields_ne_nil (d : Char) (l : List Char) :
    specUnquotedFields d l ≠ [] := by
  induction l with
  | nil => simp [specUnquotedFields]
  | cons c rest ih =>
    simp only [specUnquotedFields]
    split_ifs
    · simp
    · cases h : specUnquotedFields d rest <;> simp

/-- Field count is delimiter count plus one. -/
theorem length_specUnquotedFields (d : Char) (l : List Char) :
    (specUnquotedFields d l).length = l.count d + 1 := by
  induction l with
  | nil => simp [specUnquotedFields]
  | cons c rest ih =>
    simp only [specUnquotedFields]
    by_cases h : c = d
    · simp [h, ih, List.count_cons]
    · cases hs : specUnquotedFields d rest with
      | nil => exact absurd hs (specUnquotedFields_ne_nil d rest)
      | cons f fs =>
        have := ih
        rw [hs] at this
        simp only [List.length_cons] at this ⊢
        simp [List.count_cons, h, Ne.symm h]
        omega

/-- Interleaving the delimiter back between the fields restores the line:
the fields are literally the substrings between delimiters. -/
def joinWithChar (d : Char) : List (List Char) → List Char
  | [] => []
  | [f] => f
  | f :: g :: fs => f ++ d :: joinWithChar d (g :: fs)

theorem joinWithChar_specUnquotedFields (d : Char) (l : List Char) :
    joinWithChar d (specUnquotedFields d l) = l := by
  induction l with
  | nil => rfl
  | cons c rest ih =>
    simp only [specUnquotedFields]
    by_cases h : c = d
    · rw [if_pos h]
      cases hs : specUnquotedFields d rest with
      | nil => exact absurd hs (specUnquotedFields_ne_nil d rest)
      | cons g gs =>
        rw [hs] at ih
        simpa [joinWithChar, h] using ih
    · rw [if_neg h]
      cases hs : specUnquotedFields d rest with
      | nil => exact absurd hs (specUnquotedFields_ne_nil d rest)
      | cons g gs =>
        rw [hs] at ih
        cases gs with
        | nil => simpa [joinWithChar] using ih
        | cons g2 gs2 => simpa [joinWithChar] using ih

/-- No field of a split line contains the delimiter. -/
theorem not_mem_specUnquotedFields (d : Char) (l : List Char) :
    ∀ f ∈ specUnquotedFields d l, d ∉ f := by
  induction l with
  | nil => simp [specUnquotedFields]
  | cons c rest ih =>
    simp only [specUnquotedFields]
    by_cases h : c = d
    · rw [if_pos h]
      intro f hf
      rcases List.mem_cons.mp hf with rfl | hf
      · simp
      · exact ih f hf
    · rw [if_neg h]
      cases hs : specUnquotedFields d rest with
      | nil => exact absurd hs (specUnquotedFields_ne_nil d rest)
      | cons g gs =>
        rw [hs] at ih
        intro f hf
        rcases List.mem_cons.mp hf with rfl | hf
        · intro hmem
          rcases List.mem_cons.mp hmem with rfl | hmem
          · exact h rfl
          · exact ih g (List.mem_cons_self g gs) hmem
        · exact ih f (List.mem_cons_of_mem g hf)

/-- On a quote-free line the source tokenizer computes exactly the spec-side
split, with the pending buffer prepended to the first field. -/
theorem scanRow_no_quote (o : CsvParseOptions) (l : List Char)
    (hq : o.quoteChar ∉ l) :
    ∀ (prev : Option Char) (cv f : List Char) (fs : List (List Char)),
    specUnquotedFields o.delimiter l = f :: fs →
    scanRow o false prev cv false l = (cv ++ f) :: fs := by
  induction l with
  | nil =>
    intro prev cv f fs hs
    simp only [specUnquotedFields] at hs
    obtain ⟨rfl, rfl⟩ := by simpa using hs.symm
    simp [scanRow]
  | cons c rest ih =>
    intro prev cv f fs hs
    have hcq : ¬ c = o.quoteChar := by
      rintro rfl; exact hq (List.mem_cons_self _ _)
    have hqr : o.quoteChar ∉ rest := fun h => hq (List.mem_cons_of_mem _ h)
    obtain ⟨g, gs, hg⟩ : ∃ g gs, specUnquotedFields o.delimiter rest = g :: gs := by
      cases h : specUnquotedFields o.delimiter rest with
      | nil => exact absurd h (specUnquotedFields_ne_nil _ _)
      | cons g gs => exact ⟨g, gs, rfl⟩
    by_cases hcd : c = o.delimiter
    · rw [specUnquotedFields, if_pos hcd, hg] at hs
      obtain ⟨rfl, rfl⟩ : [] = f ∧ g :: gs = fs := by
        simpa using hs
      have hstep : scanRow o false prev cv false (c :: rest) =
          cv :: scanRow o false (some c) [] false rest := by
        simp only [scanRow]
        rw [if_neg hcq, if_pos]
        exact ⟨hcd, by simp⟩
      rw [hstep, ih hqr (some c) [] g gs hg]
      simp
    · rw [specUnquotedFields, if_neg hcd, hg] at hs
      obtain ⟨rfl, rfl⟩ : c :: g = f ∧ gs = fs := by simpa using hs
      rw [show scanRow o false prev cv false (c :: rest) =
            scanRow o false (some c) (cv ++ [c]) false rest by
          simp [scanRow, hcq, hcd],
        ih hqr (some c) (cv ++ [c]) g gs hg]
      simp

/-! ## Claim theorems: tokenizer and empty input -/

/-- C1: the claim says empty input with headers enabled yields zero Records
and exactly one ParseError with code `empty_file`.  Evaluating the code at
the failing input shows the parse of the empty text instead returns zero
Records and an empty error list (with a single empty header field): since
splitting a string never yields an empty array for a nonempty separator,
the `lines.length === 0` guard that would push the empty-file error is
unreachable for every auto-detected line break. -/
theorem c1_empty_input_no_error :
    processData defaultOptions sampleHost "" =
      .ok { data := [], errors := [],
            meta := { delimiter := ',', linebreak := "\n", truncated := false,
                      fields := some [""], rows := 0 } } ∧
    (∀ text sep : String, ¬ sep = "" → ¬ jsSplit text sep = []) := by
  refine ⟨rfl, fun text sep hsep h => ?_⟩
  rw [jsSplit, if_neg hsep] at h
  exact splitGo_ne_nil sep.toList 0 text.toList (by simpa using h)

/-- C2: the claim says the quoted field with doubled quotes
`"He said ""Hello"" to me"` tokenizes to `He said "Hello" to me`.
Evaluating the code at that input yields `He said"Hell" to me` instead: in
the escape branch the code removes the last buffer character although the
preceding quote character was never appended to the buffer, so a data
character is lost at each doubled quote. -/
theorem c2_doubled_quote_eval :
    parseRow defaultOptions "\"He said \"\"Hello\"\" to me\"" =
      ["He said\"Hell\" to me"] ∧
    ("He said\"Hell\" to me" : String) ≠ "He said \"Hello\" to me" :=
  ⟨rfl, by decide⟩

/-- C7 counterexample: the claim reads the closing quote plus delimiter as
a field terminator, but at the concrete line `"a",b` the code does not
terminate the field there — it returns the single merged field `ab`, not
the two fields `a` and `b`. -/
theorem c7_counterexample :
    parseRow defaultOptions "\"a\",b" = ["ab"] ∧
    parseRow defaultOptions "\"a\",b" ≠ ["a", "b"] :=
  ⟨rfl, by decide⟩

/-- C7 (amended): a quoted field containing the delimiter round-trips to
its literal content when it ends the line (`"Software Engineer, Senior"`
yields that single field); when a quoted field is followed by the
delimiter, the closing quote and the delimiter are consumed and contribute
no data characters, but they do not terminate the field: the buffer keeps
accumulating into the following characters, so the whole run collapses
into one field. -/
theorem c7_quoted_field_roundtrip :
    parseRow defaultOptions "\"Software Engineer, Senior\"" =
      ["Software Engineer, Senior"] ∧
    ∀ a b : List Char, '"' ∉ a → '"' ∉ b → ',' ∉ b →
      parseRow defaultOptions (String.mk ('"' :: a ++ '"' :: ',' :: b)) =
        [String.mk (a ++ b)] := by
  refine ⟨rfl, fun a b hqa hqb hdb => ?_⟩
  have h := scanRow_quoted_then_delim defaultOptions a b hqa hqb hdb
  simp only [parseRow]
  rw [show (String.mk ('"' :: a ++ '"' :: ',' :: b)).toList =
        '"' :: a ++ '"' :: ',' :: b from rfl]
  rw [show ('"' :: a ++ '"' :: ',' :: b) =
        (defaultOptions.quoteChar :: a ++
          defaultOptions.quoteChar :: defaultOptions.delimiter :: b) from rfl]
  rw [h]
  rfl

/-- C7 witness: the amended general statement applied at the concrete
line `"a",b`, whose quote and delimiter are consumed but whose field
buffer keeps running, giving the single field `ab`. -/
theorem c7_quoted_field_roundtrip_witness :
    parseRow defaultOptions (String.mk ('"' :: ['a'] ++ '"' :: ',' :: ['b'])) =
      [String.mk (['a'] ++ ['b'])] :=
  c7_quoted_field_roundtrip.2 ['a'] ['b'] (by decide) (by decide) (by decide)

/-- C8: on a line free of the quote character, the tokenizer returns
exactly delimiter-count + 1 raw fields, and those fields are the literal
substrings between consecutive delimiters: they reassemble to the line
when interleaved with the delimiter and none of them contains the
delimiter.  The empty line is the k = 0 case and yields one empty field. -/
theorem c8_unquoted_tokenization (o : CsvParseOptions) (line : String)
    (hq : o.quoteChar ∉ line.toList) :
    parseRow o line =
        (specUnquotedFields o.delimiter line.toList).map String.mk ∧
    (parseRow o line).length = line.toList.count o.delimiter + 1 ∧
    joinWithChar o.delimiter (specUnquotedFields o.delimiter line.toList) =
        line.toList ∧
    ∀ f ∈ specUnquotedFields o.delimiter line.toList, o.delimiter ∉ f := by
  obtain ⟨f, fs, hf⟩ :
      ∃ f fs, specUnquotedFields o.delimiter line.toList = f :: fs := by
    cases h : specUnquotedFields o.delimiter line.toList with
    | nil => exact absurd h (specUnquotedFields_ne_nil _ _)
    | cons f fs => exact ⟨f, fs, rfl⟩
  have hmain : parseRow o line =
      (specUnquotedFields o.delimiter line.toList).map String.mk := by
    simp only [parseRow]
    rw [scanRow_no_quote o line.toList hq none [] f fs hf, hf]
    simp
  refine ⟨hmain, ?_, joinWithChar_specUnquotedFields _ _,
    not_mem_specUnquotedFields _ _⟩
  rw [hmain, List.length_map, length_specUnquotedFields]

/-- C8 witness: the general statement applied at the default options and
the concrete lines `x,y,,z` (three delimiters, four literal fields) and
the empty line (one empty field). -/
theorem c8_unquoted_tokenization_witness :
    parseRow defaultOptions "x,y,,z" = ["x", "y", "", "z"] ∧
    (parseRow defaultOptions "x,y,,z").length = 4 ∧
    parseRow defaultOptions "" = [""] := by
  have h := c8_unquoted_tokenization defaultOptions "x,y,,z" (by decide)
  have h0 := c8_unquoted_tokenization defaultOptions "" (by decide)
  exact ⟨h.1.trans rfl, h.2.1.trans rfl, h0.1.trans rfl⟩

/-! ## Materializer lemmas -/

/-- With no parser overrides and a transform that never throws, per-field
processing in header mode always succeeds. -/
theorem buildObj_ok (o : CsvParseOptions) (host : JsHost)
    (headers : List String) (hp : ∀ k, o.parsers k = none)
    (ht : ∀ v k, o.transform v k = .ok v) :
    ∀ (row : List String) (idx : Nat) (acc : List (String × Value)),
    ∃ fields, buildObj o host headers idx acc row = .ok fields := by
  intro row
  induction row with
  | nil => intro idx acc; exact ⟨acc, rfl⟩
  | cons v rest ih =>
    intro idx acc
    obtain ⟨fields, hf⟩ := ih (idx + 1)
      (setKey acc (storeKeyOf headers idx)
        (convertType o host v (typeHintOf headers idx)))
    refine ⟨fields, ?_⟩
    simp only [buildObj, hp, ht]
    exact hf

/-- The array-mode analogue. -/
theorem buildArr_ok (o : CsvParseOptions) (host : JsHost)
    (ht : ∀ v k, o.transform v k = .ok v) :
    ∀ (row : List String) (idx : Nat) (acc : List Value),
    ∃ vals, buildArr o host idx acc row = .ok vals := by
  intro row
  induction row with
  | nil => intro idx acc; exact ⟨acc, rfl⟩
  | cons v rest ih =>
    intro idx acc
    obtain ⟨vals, hv⟩ := ih (idx + 1) (acc ++ [convertType o host v none])
    refine ⟨vals, ?_⟩
    simp only [buildArr, ht]
    exact hv

/-- With no parser overrides and a never-throwing transform, every line
materializes into a Record: there is no row-shape check that can reject a
row. -/
theorem materializeRow_ok (o : CsvParseOptions) (host : JsHost)
    (headers : List String) (line : String) (hp : ∀ k, o.parsers k = none)
    (ht : ∀ v k, o.transform v k = .ok v) :
    ∃ r, materializeRow o host headers line = .ok r := by
  by_cases hh : o.header
  · obtain ⟨fields, hf⟩ :=
      buildObj_ok o host headers hp ht (parseRow o line) 0 []
    exact ⟨.obj fields, by simp only [materializeRow, if_pos hh, hf]; rfl⟩
  · obtain ⟨vals, hv⟩ := buildArr_ok o host ht (parseRow o line) 0 []
    exact ⟨.arr vals, by simp only [materializeRow, if_neg hh, hv]; rfl⟩

/-- Under the same assumptions the row loop never throws and never records
an error. -/
theorem processLines_no_error (o : CsvParseOptions) (host : JsHost)
    (headers : List String) (hp : ∀ k, o.parsers k = none)
    (ht : ∀ v k, o.transform v k = .ok v) :
    ∀ (lines : List String) (i : Nat) (st : LoopState),
    ∃ st', processLines o host headers i st lines = .ok st' ∧
      st'.errors = st.errors := by
  intro lines
  induction lines with
  | nil => intro i st; exact ⟨st, rfl, rfl⟩
  | cons rawLine rest ih =>
    intro i st
    obtain ⟨r, hr⟩ :=
      materializeRow_ok o host headers (jsTrim rawLine) hp ht
    simp only [processLines, hr]
    split_ifs with h1 h2 h3
    · exact ⟨{ st with truncated := true }, rfl, rfl⟩
    · exact ih (i + 1) st
    · exact ih (i + 1) st
    · obtain ⟨st', hst', he⟩ := ih (i + 1) { st with data := st.data ++ [r] }
      exact ⟨st', hst', he⟩

/-- A map with a callback that returns its argument unchanged succeeds and
is the identity. -/
theorem mapExcept_ok (f : String → Except String String)
    (hf : ∀ s, f s = .ok s) : ∀ l, mapExcept f l = .ok l := by
  intro l
  induction l with
  | nil => rfl
  | cons h t ih =>
    simp only [mapExcept, hf, ih]
    rfl

/-- Splitting returns the empty array only for the empty text with the
empty separator. -/
theorem jsSplit_eq_nil {s sep : String} (h : jsSplit s sep = []) :
    s = "" ∧ sep = "" := by
  by_cases hsep : sep = ""
  · subst hsep
    rw [jsSplit, if_pos rfl] at h
    have hls : s.toList = [] := by simpa using h
    refine ⟨?_, rfl⟩
    cases s with
    | mk data =>
      have hnil : data = [] := by simpa [String.toList] using hls
      subst hnil
      rfl
  · rw [jsSplit, if_neg hsep] at h
    exact absurd (by simpa using h) (splitGo_ne_nil sep.toList 0 s.toList)

/-! ## Claim theorems: conversion and materialization -/

/-- C6: with dynamic typing disabled the conversion returns the string
unchanged; with it enabled the fixed cascade applies in priority order —
empty string to null, the boolean words, the null and undefined words,
then the host number conversion, then the host date conversion, and the
original string when nothing matches.  The special words win over any host
behaviour, and a successful number conversion wins over any date. -/
theorem c6_dynamic_typing_priority :
    (∀ (o : CsvParseOptions) (host : JsHost) (v : String)
        (hint : Option String), o.dynamicTyping = false →
      convertType o host v hint = .str v) ∧
    (∀ (o : CsvParseOptions) (host : JsHost) (hint : Option String),
      o.dynamicTyping = true →
      convertType o host "" hint = .null ∧
      convertType o host "true" hint = .bool true ∧
      convertType o host "false" hint = .bool false ∧
      convertType o host "null" hint = .null ∧
      convertType o host "undefined" hint = .jsUndefined) ∧
    (∀ (o : CsvParseOptions) (host : JsHost) (v : String)
        (hint : Option String) (n : Int), o.dynamicTyping = true →
      v ∉ ["", "true", "false", "null", "undefined"] →
      host.number v = some n → convertType o host v hint = .num n) ∧
    (∀ (o : CsvParseOptions) (host : JsHost) (v : String)
        (hint : Option String) (t : Int), o.dynamicTyping = true →
      v ∉ ["", "true", "false", "null", "undefined"] →
      host.number v = none → host.dateValue v = some t →
      convertType o host v hint = .date t) ∧
    (∀ (o : CsvParseOptions) (host : JsHost) (v : String)
        (hint : Option String), o.dynamicTyping = true →
      v ∉ ["", "true", "false", "null", "undefined"] →
      host.number v = none → host.dateValue v = none →
      convertType o host v hint = .str v) := by
  refine ⟨?_, ?_, ?_, ?_, ?_⟩
  · intro o host v hint hd
    simp [convertType, hd]
  · intro o host hint hd
    refine ⟨?_, ?_, ?_, ?_, ?_⟩ <;> simp [convertType, hd]
  · intro o host v hint n hd hv hn
    simp only [List.mem_cons, List.mem_singleton] at hv
    push_neg at hv
    obtain ⟨h1, h2, h3, h4, h5⟩ := hv
    simp [convertType, hd, h1, h2, h3, h4, h5, hn]
  · intro o host v hint t hd hv hn hdt
    simp only [List.mem_cons, List.mem_singleton] at hv
    push_neg at hv
    obtain ⟨h1, h2, h3, h4, h5⟩ := hv
    simp [convertType, hd, h1, h2, h3, h4, h5, hn, hdt]
  · intro o host v hint hd hv hn hdt
    simp only [List.mem_cons, List.mem_singleton] at hv
    push_neg at hv
    obtain ⟨h1, h2, h3, h4, h5⟩ := hv
    simp [convertType, hd, h1, h2, h3, h4, h5, hn, hdt]

/-- C6 witness: the priority cascade applied at the concrete tokens of the
claim, with a host whose number conversion accepts decimal integers:
`30` becomes the number 30, `true` the boolean, the empty string null. -/
theorem c6_dynamic_typing_priority_witness :
    convertType { defaultOptions with dynamicTyping := true } sampleHost
      "30" none = .num 30 ∧
    convertType { defaultOptions with dynamicTyping := true } sampleHost
      "true" none = .bool true ∧
    convertType { defaultOptions with dynamicTyping := true } sampleHost
      "" none = .null :=
  ⟨c6_dynamic_typing_priority.2.2.1 _ sampleHost "30" none 30 rfl (by decide)
    rfl,
   (c6_dynamic_typing_priority.2.1 _ sampleHost none rfl).2.1,
   (c6_dynamic_typing_priority.2.1 _ sampleHost none rfl).1⟩

/-- C9: with headers enabled a data row whose field count differs from the
header count still produces a Record and no ParseError.  With one header
and the row `a,b,c`, the two extra fields are both stored under the single
key `undefined`, so only the last survives; with three headers and a
one-field row the missing header keys are simply absent.  In general, with
no parser overrides and a never-throwing transform, materialization never
rejects a row of any shape. -/
theorem c9_row_shape_mismatch :
    processData defaultOptions sampleHost "name\na,b,c" =
      .ok { data := [.obj [("name", .str "a"), ("undefined", .str "c")]],
            errors := [],
            meta := { delimiter := ',', linebreak := "\n", truncated := false,
                      fields := some ["name"], rows := 1 } } ∧
    processData defaultOptions sampleHost "x,y,z\nv" =
      .ok { data := [.obj [("x", .str "v")]], errors := [],
            meta := { delimiter := ',', linebreak := "\n", truncated := false,
                      fields := some ["x", "y", "z"], rows := 1 } } ∧
    (∀ (o : CsvParseOptions) (host : JsHost) (headers : List String)
        (line : String), (∀ k, o.parsers k = none) →
      (∀ v k, o.transform v k = .ok v) → o.header = true →
      ∃ fields, materializeRow o host headers line = .ok (.obj fields)) := by
  refine ⟨rfl, rfl, ?_⟩
  intro o host headers line hp ht hh
  obtain ⟨fields, hf⟩ := buildObj_ok o host headers hp ht (parseRow o line) 0 []
  exact ⟨fields, by simp only [materializeRow, if_pos hh, hf]; rfl⟩

/-- C9 witness: the general no-rejection statement applied to a row with
more fields than headers under the default options. -/
theorem c9_row_shape_mismatch_witness :
    ∃ fields, materializeRow defaultOptions sampleHost ["h"] "a,b,c" =
      .ok (.obj fields) :=
  c9_row_shape_mismatch.2.2 defaultOptions sampleHost ["h"] "a,b,c"
    (fun _ => rfl) (fun _ _ => rfl) rfl

/-- C10 counterexample: the claim asserts an empty error list for every
input text once no parser overrides are configured and both transforms
are the identity.  The options here satisfy those constraints, yet with
the newline option explicitly the empty string and empty input the line
split yields no lines and the parse records the empty-file error. -/
theorem c10_counterexample_empty_newline :
    processData { defaultOptions with newline := .explicit "" } sampleHost
      "" =
      .ok { data := [], errors := [emptyFileError],
            meta := { delimiter := ',', linebreak := "", truncated := false,
                      fields := none, rows := 0 } } ∧
    [emptyFileError] ≠ ([] : List CsvError) :=
  ⟨rfl, by decide⟩

/-- C10 (amended): the tokenizer is total and always returns at least one
field; and for every input text, with no parser overrides and identity
transforms, the parse never raises — the error list is empty except in the
single corner where the resolved newline separator is the empty string and
the input text is empty, in which case exactly the empty-file error is
recorded. -/
theorem c10_totality :
    (∀ (o : CsvParseOptions) (line : String),
      1 ≤ (parseRow o line).length) ∧
    (∀ (o : CsvParseOptions) (host : JsHost) (text : String),
      (∀ k, o.parsers k = none) → (∀ v k, o.transform v k = .ok v) →
      (∀ s, o.transformHeader s = .ok s) →
      ∃ r, processData o host text = .ok r ∧
        (r.errors = [] ∨
          (o.header = true ∧ text = "" ∧ resolveLinebreak o text = "" ∧
            r.errors = [emptyFileError]))) := by
  constructor
  · intro o line
    simpa [parseRow] using scanRow_length_pos o false none [] false line.toList
  · intro o host text hp ht hth
    by_cases hh : o.header
    · cases hl : jsSplit text (resolveLinebreak o text) with
      | nil =>
        obtain ⟨htext, hlb⟩ := jsSplit_eq_nil hl
        refine ⟨{ data := [], errors := [emptyFileError],
                  meta := { delimiter := o.delimiter,
                            linebreak := resolveLinebreak o text,
                            truncated := false, fields := none, rows := 0 } },
                ?_, Or.inr ⟨hh, htext, hlb, rfl⟩⟩
        simp only [processData, hl, if_pos hh]
      | cons l0 rest =>
        obtain ⟨st, hst, he⟩ := processLines_no_error o host
          ((parseRow o l0).map (applyRename o)) hp ht rest 0 ⟨[], [], false⟩
        refine ⟨{ data := st.data, errors := st.errors,
                  meta := { delimiter := o.delimiter,
                            linebreak := resolveLinebreak o text,
                            truncated := st.truncated,
                            fields := some ((parseRow o l0).map (applyRename o)),
                            rows := st.data.length } },
                ?_, Or.inl (by simpa using he)⟩
        simp only [processData, hl, if_pos hh,
          mapExcept_ok o.transformHeader hth]
        show Bind.bind (processLines o host
          ((parseRow o l0).map (applyRename o)) 0 ⟨[], [], false⟩ rest) _ = _
        rw [hst]
        rfl
    · obtain ⟨st, hst, he⟩ := processLines_no_error o host [] hp ht
        (jsSplit text (resolveLinebreak o text)) 0 ⟨[], [], false⟩
      refine ⟨{ data := st.data, errors := st.errors,
                meta := { delimiter := o.delimiter,
                          linebreak := resolveLinebreak o text,
                          truncated := st.truncated, fields := none,
                          rows := st.data.length } },
              ?_, Or.inl (by simpa using he)⟩
      simp only [processData, if_neg hh]
      show Bind.bind (processLines o host [] 0 ⟨[], [], false⟩
        (jsSplit text (resolveLinebreak o text))) _ = _
      rw [hst]
      rfl

/-- C10 witness: the never-raises statement applied at the default options
and a concrete two-line text. -/
theorem c10_totality_witness :
    ∃ r, processData defaultOptions sampleHost "name,age\nJohn,30" =
        .ok r ∧
      (r.errors = [] ∨
        (defaultOptions.header = true ∧ "name,age\nJohn,30" = "" ∧
          resolveLinebreak defaultOptions "name,age\nJohn,30" = "" ∧
          r.errors = [emptyFileError])) :=
  c10_totality.2 defaultOptions sampleHost "name,age\nJohn,30"
    (fun _ => rfl) (fun _ _ => rfl) (fun _ => rfl)

/-- C5: conversion precedence per field.  With headers enabled, a field
whose header name has a parser override is converted by that parser alone
— the generic `convertType` step is skipped for it — while a sibling field
without an override in the same row goes through the generic conversion;
in both cases the global transform is then applied to the converted value
with the field's key, and its return value is what is stored. -/
theorem c5_parser_override_precedence (o : CsvParseOptions) (host : JsHost)
    (h1 h2 : String) (p : String → Except String Value) (line v1 v2 : String)
    (a a' b' : Value) (hh : o.header = true) (hp1 : o.parsers h1 = some p)
    (hp2 : o.parsers h2 = none) (hrow : parseRow o line = [v1, v2])
    (hpa : p v1 = .ok a) (hta : o.transform a (.name h1) = .ok a')
    (htb : o.transform (convertType o host v2 (some h2)) (.name h2) =
      .ok b') :
    materializeRow o host [h1, h2] line =
      .ok (.obj (setKey (setKey [] h1 a') h2 b')) := by
  have hk0 : storeKeyOf [h1, h2] 0 = h1 := rfl
  have hk1 : storeKeyOf [h1, h2] (0 + 1) = h2 := rfl
  have hhint : typeHintOf [h1, h2] (0 + 1) = some h2 := rfl
  have hf0 : fieldKeyOf [h1, h2] 0 = .name h1 := rfl
  have hf1 : fieldKeyOf [h1, h2] (0 + 1) = .name h2 := rfl
  simp only [materializeRow, hrow, if_pos hh, buildObj, hk0, hk1, hp1, hp2,
    hhint, hf0, hf1]
  rw [hpa]
  show Bind.bind (Bind.bind (o.transform a (FieldKey.name h1)) _) _ = _
  rw [hta]
  show Bind.bind (Bind.bind
    (o.transform (convertType o host v2 (some h2)) (FieldKey.name h2)) _) _ = _
  rw [htb]
  rfl

/-- C5 witness: concrete options with a parser override for the first
header only; the override's value is stored for the first field while the
second field takes the generic string conversion. -/
theorem c5_parser_override_precedence_witness :
    materializeRow
      { defaultOptions with
        parsers := fun k =>
          if k = "a" then some (fun _ => .ok (.num 7)) else none }
      sampleHost ["a", "b"] "x,y" =
      .ok (.obj (setKey (setKey [] "a" (.num 7)) "b" (.str "y"))) :=
  c5_parser_override_precedence
    { defaultOptions with
      parsers := fun k =>
        if k = "a" then some (fun _ => .ok (.num 7)) else none }
    sampleHost "a" "b" (fun _ => .ok (.num 7)) "x,y" "x" "y"
    (.num 7) (.num 7) (.str "y") rfl rfl rfl rfl rfl rfl rfl

/-- Parser for the C3 scenario: throws on the malformed cell. -/
def c3ageParser (v : String) : Except String Value :=
  if v = "x" then .error "Invalid age" else .ok (.str v)

/-- Options for the C3 scenario, with the given invalid-row policy. -/
def c3opts (skip : Bool) : CsvParseOptions :=
  { defaultOptions with
    skipInvalidLines := skip
    parsers := fun k => if k = "age" then some c3ageParser else none }

/-- C3: with skipInvalidLines true, a row whose per-field processing throws
yields no Record, parsing continues, and exactly one ParseError is appended
carrying the thrown message and the 1-based data-line number; with it
false, the first failure propagates out of the parse.  On three valid rows
plus one throwing row the parse returns exactly 3 Records and 1 ParseError
with row number 2; the general one-step facts hold for every state. -/
theorem c3_skip_invalid_lines :
    processData (c3opts true) sampleHost "name,age\nA,1\nB,x\nC,2\nD,3" =
      .ok { data := [.obj [("name", .str "A"), ("age", .str "1")],
                     .obj [("name", .str "C"), ("age", .str "2")],
                     .obj [("name", .str "D"), ("age", .str "3")]],
            errors := [{ type := "InvalidRow", code := "row_parse_failed",
                         message := "Invalid age", row := some 2,
                         index := none }],
            meta := { delimiter := ',', linebreak := "\n", truncated := false,
                      fields := some ["name", "age"], rows := 3 } } ∧
    processData (c3opts false) sampleHost "name,age\nA,1\nB,x\nC,2\nD,3" =
      .error "Invalid age" ∧
    (∀ (o : CsvParseOptions) (host : JsHost) (headers : List String)
        (i : Nat) (st : LoopState) (line : String) (rest : List String)
        (msg : String),
      ¬ (o.preview ≠ 0 ∧ o.preview ≤ st.data.length) →
      ¬ (o.skipEmptyLines ∧ jsTrim line = "") →
      ¬ (o.comments.truthy ∧ jsStartsWith (jsTrim line) o.comments.mark) →
      materializeRow o host headers (jsTrim line) = .error msg →
      o.skipInvalidLines = false →
      processLines o host headers i st (line :: rest) = .error msg) ∧
    (∀ (o : CsvParseOptions) (host : JsHost) (headers : List String)
        (i : Nat) (st : LoopState) (line : String) (rest : List String)
        (msg : String),
      ¬ (o.preview ≠ 0 ∧ o.preview ≤ st.data.length) →
      ¬ (o.skipEmptyLines ∧ jsTrim line = "") →
      ¬ (o.comments.truthy ∧ jsStartsWith (jsTrim line) o.comments.mark) →
      materializeRow o host headers (jsTrim line) = .error msg →
      o.skipInvalidLines = true →
      processLines o host headers i st (line :: rest) =
        processLines o host headers (i + 1)
          { st with errors := st.errors ++ [rowError msg (i + 1)] } rest) := by
  refine ⟨rfl, rfl, ?_, ?_⟩
  · intro o host headers i st line rest msg hprev hempty hcomm hmat hskip
    simp only [processLines, if_neg hprev, if_neg hempty, if_neg hcomm, hmat,
      hskip]
    rfl
  · intro o host headers i st line rest msg hprev hempty hcomm hmat hskip
    simp only [processLines, if_neg hprev, if_neg hempty, if_neg hcomm, hmat,
      hskip]
    rfl

/-- C3 witness: the abort-policy fact applied at the concrete throwing row
of the scenario. -/
theorem c3_skip_invalid_lines_witness :
    processLines (c3opts false) sampleHost ["name", "age"] 0 ⟨[], [], false⟩
      ["B,x"] = .error "Invalid age" :=
  c3_skip_invalid_lines.2.2.1 (c3opts false) sampleHost ["name", "age"] 0
    ⟨[], [], false⟩ "B,x" [] "Invalid age" (by decide) (by decide) (by decide)
    rfl rfl

/-! ## Row-loop step lemmas and the preview scenario -/

/-- A line that passes the preview, empty-line and comment checks and
materializes appends exactly one Record and continues the loop. -/
theorem processLines_cons_ok (o : CsvParseOptions) (host : JsHost)
    (headers : List String) (i : Nat) (st : LoopState) (line : String)
    (rest : List String) (r : Record)
    (hprev : ¬ (o.preview ≠ 0 ∧ o.preview ≤ st.data.length))
    (hempty : ¬ (o.skipEmptyLines ∧ jsTrim line = ""))
    (hcomm : ¬ (o.comments.truthy ∧ jsStartsWith (jsTrim line) o.comments.mark))
    (hmat : materializeRow o host headers (jsTrim line) = .ok r) :
    processLines o host headers i st (line :: rest) =
      processLines o host headers (i + 1)
        { st with data := st.data ++ [r] } rest := by
  simp only [processLines, if_neg hprev, if_neg hempty, if_neg hcomm, hmat]

/-- Once the preview cap is reached the loop stops before processing the
next line and marks the result truncated. -/
theorem processLines_truncates (o : CsvParseOptions) (host : JsHost)
    (headers : List String) (i : Nat) (st : LoopState) (line : String)
    (rest : List String)
    (hprev : o.preview ≠ 0 ∧ o.preview ≤ st.data.length) :
    processLines o host headers i st (line :: rest) =
      .ok { st with truncated := true } := by
  simp only [processLines, if_pos hprev]

/-- Options of the preview scenario: array mode, explicit LF newline, and
the given preview cap. -/
def c4opts (p : Nat) : CsvParseOptions :=
  { defaultOptions with
    header := false
    newline := .explicit "\n"
    preview := p }

/-- Characters of n one-character data lines joined by LF. -/
def c4chars : Nat → List Char
  | 0 => []
  | 1 => ['a']
  | n + 2 => 'a' :: '\n' :: c4chars (n + 1)

/-- The n-line input text of the preview scenario. -/
def c4text (n : Nat) : String := String.mk (c4chars n)

/-- The Record each line of the scenario materializes to. -/
def c4rec : Record := .arr [.str "a"]

theorem splitGo_c4chars (n : Nat) :
    splitGo ['\n'] 0 (c4chars (n + 1)) = List.replicate (n + 1) ['a'] := by
  induction n with
  | zero => rfl
  | succ m ih =>
    have h1 : splitGo ['\n'] 0 ('\n' :: c4chars (m + 1)) =
        [] :: splitGo ['\n'] 0 (c4chars (m + 1)) := by
      simp only [splitGo]
      rw [if_pos]
      · rfl
      · exact ⟨by simp, by simp [List.isPrefixOf]⟩
    have h2 : splitGo ['\n'] 0 ('a' :: '\n' :: c4chars (m + 1)) =
        match splitGo ['\n'] 0 ('\n' :: c4chars (m + 1)) with
        | [] => [['a']]
        | f :: fs => ('a' :: f) :: fs := by
      simp only [splitGo]
      rw [if_neg]
      rintro ⟨-, hpre⟩
      rw [show List.isPrefixOf ['\n'] ('a' :: '\n' :: c4chars (m + 1)) =
            false from rfl] at hpre
      cases hpre
    rw [show c4chars (m + 2) = 'a' :: '\n' :: c4chars (m + 1) from rfl, h2,
      h1, ih]
    rfl

theorem jsSplit_c4text (n : Nat) (hn : 0 < n) :
    jsSplit (c4text n) "\n" = List.replicate n "a" := by
  obtain ⟨m, rfl⟩ : ∃ m, n = m + 1 := ⟨n - 1, by omega⟩
  rw [jsSplit, if_neg (by decide),
    show (c4text (m + 1)).toList = c4chars (m + 1) from rfl,
    show ("\n" : String).toList = ['\n'] from rfl, splitGo_c4chars m,
    List.map_replicate]

theorem c4_loop_nopreview (host : JsHost) :
    ∀ (n i : Nat) (st : LoopState),
    processLines (c4opts 0) host [] i st (List.replicate n "a") =
      .ok ⟨st.data ++ List.replicate n c4rec, st.errors, st.truncated⟩ := by
  intro n
  induction n with
  | zero => intro i st; simp [processLines]
  | succ m ih =>
    intro i st
    rw [List.replicate_succ,
      processLines_cons_ok (c4opts 0) host [] i st "a"
        (List.replicate m "a") c4rec (fun h => h.1 rfl)
        (fun h => absurd h.2 (by decide))
        (fun h => Bool.noConfusion (show false = true from h.1))
        rfl,
      ih (i + 1) { st with data := st.data ++ [c4rec] }]
    simp [List.append_assoc, List.replicate_succ]

theorem c4_loop_preview (host : JsHost) (p : Nat) (hp : p ≠ 0) :
    ∀ (n i : Nat) (st : LoopState), st.data.length ≤ p →
    processLines (c4opts p) host [] i st (List.replicate n "a") =
      .ok ⟨st.data ++ List.replicate (min n (p - st.data.length)) c4rec,
           st.errors,
           if p - st.data.length < n then true else st.truncated⟩ := by
  intro n
  induction n with
  | zero => intro i st _; simp [processLines]
  | succ m ih =>
    intro i st hle
    by_cases hfull : p ≤ st.data.length
    · rw [List.replicate_succ,
        processLines_truncates (c4opts p) host [] i st "a"
          (List.replicate m "a")
          ⟨show (c4opts p).preview ≠ 0 from hp,
           show (c4opts p).preview ≤ st.data.length from hfull⟩]
      have h0 : p - st.data.length = 0 := by omega
      rw [h0]
      simp
    · push_neg at hfull
      rw [List.replicate_succ,
        processLines_cons_ok (c4opts p) host [] i st "a"
          (List.replicate m "a") c4rec
          (fun h => absurd (show p ≤ st.data.length from h.2) (by omega))
          (fun h => absurd h.2 (by decide))
          (fun h => Bool.noConfusion (show false = true from h.1))
          rfl,
        ih (i + 1) { st with data := st.data ++ [c4rec] }
          (by simp; omega)]
      have hlen : ({ st with data := st.data ++ [c4rec] } :
          LoopState).data.length = st.data.length + 1 := by simp
      simp only [hlen]
      have hmin : min m (p - (st.data.length + 1)) + 1 =
          min (m + 1) (p - st.data.length) := by omega
      have hiff : (p - (st.data.length + 1) < m) ↔
          (p - st.data.length < m + 1) := by omega
      congr 1
      refine congrArg₂ (fun a b => LoopState.mk a st.errors b) ?_ ?_
      · rw [List.append_assoc, ← hmin, List.replicate_succ]
        rfl
      · rw [if_congr hiff rfl rfl]

/-- C4: for n nonempty data lines in array mode, a positive preview cap p
stops the row loop before processing a line as soon as p Records exist:
with p < n the parse yields exactly min n p = p Records and
truncated = true; with no preview (p = 0) it yields all n Records and
truncated = false; and truncated is true exactly when a positive cap cut
processing short, that is, when 0 < p < n. -/
theorem c4_preview_cutoff (n p : Nat) (host : JsHost) (hn : 0 < n) :
    ∃ r, processData (c4opts p) host (c4text n) = .ok r ∧
      r.data.length = (if 0 < p then min n p else n) ∧
      (r.meta.truncated = true ↔ 0 < p ∧ p < n) := by
  have hlines := jsSplit_c4text n hn
  by_cases hp : p = 0
  · subst hp
    have hloop := c4_loop_nopreview host n 0 ⟨[], [], false⟩
    refine ⟨{ data := List.replicate n c4rec, errors := [],
              meta := { delimiter := ',', linebreak := "\n",
                        truncated := false, fields := none,
                        rows := (List.replicate n c4rec).length } },
            ?_, by simp, by simp⟩
    show Bind.bind (processLines (c4opts 0) host [] 0 ⟨[], [], false⟩
      (jsSplit (c4text n) "\n")) _ = _
    rw [hlines, hloop]
    rfl
  · have hloop := c4_loop_preview host p hp n 0 ⟨[], [], false⟩
      (by simp)
    refine ⟨{ data := List.replicate (min n p) c4rec, errors := [],
              meta := { delimiter := ',', linebreak := "\n",
                        truncated := if p < n then true else false,
                        fields := none,
                        rows := (List.replicate (min n p) c4rec).length } },
            ?_, ?_, ?_⟩
    · show Bind.bind (processLines (c4opts p) host [] 0 ⟨[], [], false⟩
        (jsSplit (c4text n) "\n")) _ = _
      rw [hlines, hloop]
      rfl
    · simp [Nat.pos_of_ne_zero hp]
    · by_cases hlt : p < n <;> simp [hlt, Nat.pos_of_ne_zero hp]

/-- C4 witness: the preview statement applied at 1000 data rows, once with
preview 10 (10 Records, truncated) and once with no preview (1000 Records,
not truncated). -/
theorem c4_preview_cutoff_witness :
    (∃ r, processData (c4opts 10) sampleHost (c4text 1000) = .ok r ∧
      r.data.length = 10 ∧ r.meta.truncated = true) ∧
    (∃ r, processData (c4opts 0) sampleHost (c4text 1000) = .ok r ∧
      r.data.length = 1000 ∧ r.meta.truncated = false) := by
  constructor
  · obtain ⟨r, h1, h2, h3⟩ := c4_preview_cutoff 1000 10 sampleHost (by decide)
    refine ⟨r, h1, ?_, h3.mpr (by decide)⟩
    rw [h2]
    decide
  · obtain ⟨r, h1, h2, h3⟩ := c4_preview_cutoff 1000 0 sampleHost (by decide)
    refine ⟨r, h1, by rw [h2]; decide, ?_⟩
    cases htr : r.meta.truncated
    · rfl
    · exact absurd (h3.mp htr) (by decide)
